import Mathlib

/-!
Verification of the coherent-line-drawing core (cld.go) of
esimov/openfaas-coherent-line-drawing.

Floating-point values of the Go source are embedded as exact reals; gocv
matrices are embedded as total functions over integer coordinates together
with explicit row/column counts.  Per-pixel loops are embedded as folds or
fuel-indexed recursion that transliterate the Go loop bodies.
-/

namespace Colidr

/-- Function `gauss` computes the gaussian function of variance (cld.go:356-358):
`math.Exp((-(x-mean)*(x-mean))/(2*sigma*sigma)) / math.Sqrt(math.Pi*2.0*sigma*sigma)`. -/
noncomputable def gauss (x mean sigma : ℝ) : ℝ :=
  Real.exp ((-(x - mean) * (x - mean)) / (2 * sigma * sigma)) /
    Real.sqrt (Real.pi * 2.0 * sigma * sigma)

/-- Candidate stopping indices of the truncation loop of `makeGaussianVector`
(cld.go:368-373): the loop increments `i` starting from 0 before each test, so
it stops at the first index `i ≥ 1` with `gauss(i,0,sigma) < 0.001`. -/
def gaussStopSet (sigma : ℝ) : Set ℕ :=
  {i : ℕ | 1 ≤ i ∧ gauss i 0 sigma < 0.001}

/-- The index at which the truncation loop of `makeGaussianVector` breaks:
the least element of `gaussStopSet` (the Go loop tests `i = 1, 2, ...` in
order and breaks at the first hit). -/
noncomputable def gaussStopIndex (sigma : ℝ) : ℕ :=
  sInf (gaussStopSet sigma)

/-- Function `makeGaussianVector` (cld.go:361-385): returns the vector of length
`i + 1` (where `i` is the stopping index) with `gau[0] = gauss(0,0,sigma)`
and `gau[j] = gauss(j,0,sigma)` for `j = 1 .. i`. -/
noncomputable def makeGaussianVector (sigma : ℝ) : List ℝ :=
  (List.range (gaussStopIndex sigma + 1)).map (fun j : ℕ => gauss j 0 sigma)

/-! Section: Basic facts about `gauss` and the truncated vector -/

lemma gauss_nonneg (x mean sigma : ℝ) : 0 ≤ gauss x mean sigma :=
  div_nonneg (Real.exp_pos _).le (Real.sqrt_nonneg _)

lemma gauss_pos (x : ℝ) {sigma : ℝ} (hs : sigma ≠ 0) : 0 < gauss x 0 sigma := by
  have hsq : 0 < sigma * sigma := by
    rcases lt_or_gt_of_ne hs with h | h
    · nlinarith
    · nlinarith
  have hden : 0 < Real.pi * 2.0 * sigma * sigma := by
    have hp : (0 : ℝ) < Real.pi := Real.pi_pos
    nlinarith
  exact div_pos (Real.exp_pos _) (Real.sqrt_pos.mpr hden)

/-- The map `gauss · 0 sigma` is antitone on the nonnegative reals. -/
lemma gauss_anti (sigma : ℝ) {a b : ℝ} (ha : 0 ≤ a) (hab : a ≤ b) :
    gauss b 0 sigma ≤ gauss a 0 sigma := by
  have hden : (0 : ℝ) ≤ 2 * sigma * sigma := by nlinarith [mul_self_nonneg sigma]
  have hsq : a * a ≤ b * b := mul_self_le_mul_self ha hab
  have hnum : (-(b - 0) * (b - 0)) ≤ (-(a - 0) * (a - 0)) := by nlinarith
  unfold gauss
  exact div_le_div_of_nonneg_right
    (Real.exp_le_exp.mpr (div_le_div_of_nonneg_right hnum hden)) (Real.sqrt_nonneg _)

lemma exp_neg_le_one_div {x : ℝ} (hx : 0 < x) : Real.exp (-x) ≤ 1 / x := by
  rw [Real.exp_neg, one_div]
  have hle : x ≤ Real.exp x := by
    have := Real.add_one_le_exp x
    linarith
  exact inv_anti₀ hx hle

/-- Quantitative tail bound used for termination of the truncation loop:
for `sigma > 0` and real `1 ≤ i`, `gauss i 0 sigma ≤ sigma / (i * i)`. -/
lemma gauss_le_sigma_div_sq {sigma : ℝ} (hσ : 0 < sigma) {i : ℝ} (hi : 1 ≤ i) :
    gauss i 0 sigma ≤ sigma / (i * i) := by
  have hipos : (0 : ℝ) < i := lt_of_lt_of_le one_pos hi
  have hii : (0 : ℝ) < i * i := mul_pos hipos hipos
  have hss : (0 : ℝ) < 2 * sigma * sigma := by nlinarith
  have harg : (-(i - 0) * (i - 0)) / (2 * sigma * sigma) = -((i * i) / (2 * sigma * sigma)) := by
    ring
  have hexp : Real.exp ((-(i - 0) * (i - 0)) / (2 * sigma * sigma)) ≤
      (2 * sigma * sigma) / (i * i) := by
    rw [harg]
    have h1 := exp_neg_le_one_div (div_pos hii hss)
    calc Real.exp (-((i * i) / (2 * sigma * sigma))) ≤ 1 / ((i * i) / (2 * sigma * sigma)) := h1
      _ = (2 * sigma * sigma) / (i * i) := by rw [one_div_div]
  have hsqrt : 2 * sigma ≤ Real.sqrt (Real.pi * 2.0 * sigma * sigma) := by
    have h4 : (2 * sigma) * (2 * sigma) ≤ Real.pi * 2.0 * sigma * sigma := by
      have hp : (3 : ℝ) < Real.pi := Real.pi_gt_three
      nlinarith
    calc 2 * sigma = Real.sqrt ((2 * sigma) * (2 * sigma)) := by
          rw [Real.sqrt_mul_self (by nlinarith)]
      _ ≤ Real.sqrt (Real.pi * 2.0 * sigma * sigma) := Real.sqrt_le_sqrt h4
  have h2σ : (0 : ℝ) < 2 * sigma := by nlinarith
  have hmain : gauss i 0 sigma ≤ ((2 * sigma * sigma) / (i * i)) / (2 * sigma) :=
    div_le_div₀ (by positivity) hexp h2σ hsqrt
  calc gauss i 0 sigma ≤ ((2 * sigma * sigma) / (i * i)) / (2 * sigma) := hmain
    _ = sigma / (i * i) := by field_simp; ring

/-- Termination of the `makeGaussianVector` truncation loop for `sigma > 0`:
some index `i ≥ 1` gives `gauss(i,0,sigma) < 0.001`. -/
lemma gaussStopSet_nonempty {sigma : ℝ} (hσ : 0 < sigma) : (gaussStopSet sigma).Nonempty := by
  refine ⟨⌈1000 * sigma⌉₊ + 1, Nat.le_add_left 1 _, ?_⟩
  set i : ℕ := ⌈1000 * sigma⌉₊ + 1 with hidef
  have h1000 : 1000 * sigma < (i : ℝ) := by
    calc 1000 * sigma ≤ (⌈1000 * sigma⌉₊ : ℝ) := Nat.le_ceil _
      _ < (i : ℝ) := by exact_mod_cast Nat.lt_succ_self _
  have hi1 : (1 : ℝ) ≤ (i : ℝ) := by exact_mod_cast Nat.one_le_iff_ne_zero.mpr (by omega)
  have hb := gauss_le_sigma_div_sq hσ hi1
  have hlt : sigma / ((i : ℝ) * i) < 0.001 := by
    have hii : 1000 * sigma < (i : ℝ) * i := by nlinarith
    rw [div_lt_iff₀ (by nlinarith)]
    nlinarith
  exact lt_of_le_of_lt hb hlt

lemma gaussStopIndex_mem {sigma : ℝ} (hσ : 0 < sigma) :
    gaussStopIndex sigma ∈ gaussStopSet sigma :=
  Nat.sInf_mem (gaussStopSet_nonempty hσ)

lemma one_le_gaussStopIndex {sigma : ℝ} (hσ : 0 < sigma) : 1 ≤ gaussStopIndex sigma :=
  (gaussStopIndex_mem hσ).1

lemma gauss_stopIndex_lt {sigma : ℝ} (hσ : 0 < sigma) :
    gauss (gaussStopIndex sigma) 0 sigma < 0.001 :=
  (gaussStopIndex_mem hσ).2

/-- Minimality of the stopping index: every earlier index `j ≥ 1` is still at
or above the threshold. -/
lemma le_gauss_of_lt_stopIndex {sigma : ℝ} {j : ℕ} (h1 : 1 ≤ j)
    (hj : j < gaussStopIndex sigma) : 0.001 ≤ gauss j 0 sigma := by
  have hnm := Nat.not_mem_of_lt_sInf hj
  by_contra hcon
  exact hnm ⟨h1, lt_of_not_le hcon⟩

lemma makeGaussianVector_length (sigma : ℝ) :
    (makeGaussianVector sigma).length = gaussStopIndex sigma + 1 := by
  unfold makeGaussianVector
  rw [List.length_map, List.length_range]

lemma makeGaussianVector_getD (sigma : ℝ) {i : ℕ} (h : i < gaussStopIndex sigma + 1) :
    (makeGaussianVector sigma).getD i 0 = gauss i 0 sigma := by
  have hlen : i < (makeGaussianVector sigma).length := by
    rw [makeGaussianVector_length]; exact h
  rw [List.getD_eq_getElem _ _ hlen]
  unfold makeGaussianVector
  rw [List.getElem_map, List.getElem_range]

lemma mem_makeGaussianVector {sigma : ℝ} {v : ℝ} :
    v ∈ makeGaussianVector sigma ↔
      ∃ j : ℕ, j < gaussStopIndex sigma + 1 ∧ v = gauss j 0 sigma := by
  unfold makeGaussianVector
  rw [List.mem_map]
  constructor
  · rintro ⟨j, hj, hEq⟩
    exact ⟨j, List.mem_range.mp hj, hEq.symm⟩
  · rintro ⟨j, hj, hEq⟩
    exact ⟨j, List.mem_range.mpr hj, hEq.symm⟩

/-- Parameter `sigma` enters `gauss` only through `sigma * sigma`, so negating it
changes nothing. -/
lemma gauss_neg_sigma (x sigma : ℝ) : gauss x 0 (-sigma) = gauss x 0 sigma := by
  unfold gauss
  have h1 : 2 * -sigma * -sigma = 2 * sigma * sigma := by ring
  have h2 : Real.pi * 2.0 * -sigma * -sigma = Real.pi * 2.0 * sigma * sigma := by ring
  rw [h1, h2]

lemma gaussStopSet_neg (sigma : ℝ) : gaussStopSet (-sigma) = gaussStopSet sigma := by
  ext i
  unfold gaussStopSet
  rw [Set.mem_setOf_eq, Set.mem_setOf_eq, gauss_neg_sigma]

lemma gaussStopIndex_neg (sigma : ℝ) : gaussStopIndex (-sigma) = gaussStopIndex sigma := by
  unfold gaussStopIndex
  rw [gaussStopSet_neg]

lemma makeGaussianVector_neg (sigma : ℝ) :
    makeGaussianVector (-sigma) = makeGaussianVector sigma := by
  unfold makeGaussianVector
  rw [gaussStopIndex_neg]
  apply List.map_congr_left
  intro j _
  rw [gauss_neg_sigma]

/-! Section: Claim C10 -/

/-- C10: for every `sigma > 0`, `makeGaussianVector sigma` terminates
(it is total here; termination is `gaussStopSet_nonempty`) and returns a
vector of length at least 2 — the truncation loop increments its index
before the first threshold test — so the derived half-widths
`kernel = len(gvs)-1` (cld.go:141) and `kernelHalf = len(gausVec)-1`
(cld.go:206) are always at least 1. -/
theorem claim10_makeGaussianVector_length_ge_two {sigma : ℝ} (hσ : 0 < sigma) :
    2 ≤ (makeGaussianVector sigma).length ∧
      1 ≤ (makeGaussianVector sigma).length - 1 := by
  have h1 := one_le_gaussStopIndex hσ
  rw [makeGaussianVector_length]
  omega

/-- Witness for C10 at the concrete input `sigma = 1`. -/
theorem claim10_witness :
    2 ≤ (makeGaussianVector 1).length ∧ 1 ≤ (makeGaussianVector 1).length - 1 :=
  claim10_makeGaussianVector_length_ge_two (by norm_num)

/-! Section: Claim C3 -/

/-- C3 as stated is false at the concrete input `sigma = 1`: the returned
vector contains an element strictly below the 0.001 threshold (its last
element is the first sub-threshold sample, which the loop appends),
contradicting "every returned element is at least 0.001". -/
theorem claim3_counterexample :
    ¬ (∀ v ∈ makeGaussianVector 1, (0.001 : ℝ) ≤ v) := by
  intro hall
  have hσ : (0 : ℝ) < 1 := one_pos
  have hmem : gauss (gaussStopIndex 1) 0 1 ∈ makeGaussianVector 1 :=
    mem_makeGaussianVector.mpr ⟨gaussStopIndex 1, Nat.lt_succ_self _, rfl⟩
  have hge := hall _ hmem
  have hlt := gauss_stopIndex_lt hσ
  linarith

/-- C3 (amended): for every `sigma > 0`, `makeGaussianVector sigma` returns
the ordered sequence `g[0..k]` with `g[i] = gauss(i, 0, sigma)`, where `k`
is the smallest index `≥ 1` such that `gauss(k, 0, sigma) < 0.001` — so the
last element is the first sub-threshold sample (elements at indices
`1..k-1` are at least 0.001, the last is below it), and `g[0]` is the
single mean-centered peak value, not doubled. -/
theorem claim3_amended_kernel_characterization {sigma : ℝ} (hσ : 0 < sigma) :
    (makeGaussianVector sigma).length = gaussStopIndex sigma + 1 ∧
    1 ≤ gaussStopIndex sigma ∧
    (∀ i : ℕ, i ≤ gaussStopIndex sigma →
      (makeGaussianVector sigma).getD i 0 = gauss i 0 sigma) ∧
    gauss (gaussStopIndex sigma) 0 sigma < 0.001 ∧
    (∀ j : ℕ, 1 ≤ j → j < gaussStopIndex sigma → 0.001 ≤ gauss j 0 sigma) ∧
    (makeGaussianVector sigma).getD 0 0 = gauss 0 0 sigma := by
  refine ⟨makeGaussianVector_length sigma, one_le_gaussStopIndex hσ, ?_,
    gauss_stopIndex_lt hσ, ?_, ?_⟩
  · intro i hi
    exact makeGaussianVector_getD sigma (by omega)
  · intro j h1 hj
    exact le_gauss_of_lt_stopIndex h1 hj
  · have h0 := @makeGaussianVector_getD sigma 0 (by omega)
    rw [h0, Nat.cast_zero]

/-- Witness for the amended C3 at the concrete input `sigma = 1`. -/
theorem claim3_witness :
    (makeGaussianVector 1).length = gaussStopIndex 1 + 1 ∧
    1 ≤ gaussStopIndex 1 ∧
    (∀ i : ℕ, i ≤ gaussStopIndex 1 →
      (makeGaussianVector 1).getD i 0 = gauss i 0 1) ∧
    gauss (gaussStopIndex 1) 0 1 < 0.001 ∧
    (∀ j : ℕ, 1 ≤ j → j < gaussStopIndex 1 → 0.001 ≤ gauss j 0 1) ∧
    (makeGaussianVector 1).getD 0 0 = gauss 0 0 1 :=
  claim3_amended_kernel_characterization (by norm_num)

/-! Section: Claim C4 -/

lemma gauss_one_400_lt : gauss 1 0 400 < 0.001 := by
  have hexp : Real.exp ((-(1 - 0) * (1 - 0)) / (2 * 400 * 400)) < 1 := by
    rw [Real.exp_lt_one_iff]
    norm_num
  have hsqrt : (1000 : ℝ) < Real.sqrt (Real.pi * 2.0 * 400 * 400) := by
    rw [show (1000 : ℝ) = Real.sqrt (1000 * 1000) by
      rw [Real.sqrt_mul_self (by norm_num)]]
    apply Real.sqrt_lt_sqrt (by norm_num)
    have hp := Real.pi_gt_d6
    nlinarith
  have hpos : (0 : ℝ) < Real.sqrt (Real.pi * 2.0 * 400 * 400) := by linarith
  unfold gauss
  have h1 : Real.exp ((-(1 - 0) * (1 - 0)) / (2 * 400 * 400)) /
      Real.sqrt (Real.pi * 2.0 * 400 * 400) < 1 / 1000 := by
    apply div_lt_div₀ hexp (le_of_lt hsqrt) (by norm_num) (by norm_num)
  calc Real.exp ((-(1 - 0) * (1 - 0)) / (2 * 400 * 400)) /
      Real.sqrt (Real.pi * 2.0 * 400 * 400) < 1 / 1000 := h1
    _ = 0.001 := by norm_num

lemma gauss_one_200_ge : (0.001 : ℝ) ≤ gauss 1 0 200 := by
  have hsqrt : Real.sqrt (Real.pi * 2.0 * 200 * 200) < 502 := by
    rw [show (502 : ℝ) = Real.sqrt (502 * 502) by
      rw [Real.sqrt_mul_self (by norm_num)]]
    apply Real.sqrt_lt_sqrt (by positivity)
    have hp := Real.pi_lt_d2
    nlinarith
  have hsqrtpos : (0 : ℝ) < Real.sqrt (Real.pi * 2.0 * 200 * 200) := by
    apply Real.sqrt_pos.mpr
    have hp := Real.pi_pos
    nlinarith
  have hexp : (0.502 : ℝ) ≤ Real.exp ((-(1 - 0) * (1 - 0)) / (2 * 200 * 200)) := by
    have h := Real.add_one_le_exp ((-(1 - 0) * (1 - 0)) / (2 * 200 * 200))
    have harg : ((-(1 - 0) * (1 - 0)) / (2 * 200 * 200) : ℝ) = -(1 / 80000) := by norm_num
    rw [harg] at h ⊢
    linarith
  unfold gauss
  rw [le_div_iff₀ hsqrtpos]
  nlinarith

/-- C4's "doubling sigma strictly increases the length" is false at the
concrete input `sigma = 200`: the vector for `2 * 200` is strictly SHORTER
than the vector for `200` (the former has length 2, the latter at least 3). -/
theorem claim4_counterexample :
    (makeGaussianVector (2 * 200)).length < (makeGaussianVector 200).length := by
  have h400 : (2 * 200 : ℝ) = 400 := by norm_num
  rw [h400, makeGaussianVector_length, makeGaussianVector_length]
  have hidx400 : gaussStopIndex 400 = 1 := by
    have hmem : (1 : ℕ) ∈ gaussStopSet 400 := ⟨le_refl 1, by
      rw [Nat.cast_one]; exact gauss_one_400_lt⟩
    have hle : gaussStopIndex 400 ≤ 1 := Nat.sInf_le hmem
    have hge : 1 ≤ gaussStopIndex 400 := one_le_gaussStopIndex (by norm_num)
    omega
  have hidx200 : 2 ≤ gaussStopIndex 200 := by
    by_contra hcon
    have hmem := @gaussStopIndex_mem 200 (by norm_num)
    have h1 : gaussStopIndex 200 = 1 := by
      have := hmem.1
      omega
    have h2 := hmem.2
    rw [h1, Nat.cast_one] at h2
    have := gauss_one_200_ge
    linarith
  omega

/-- C4 (amended): for every `sigma > 0`, the vector returned by
`makeGaussianVector sigma` is monotonically non-increasing in index, and its
last element is `< 0.001`.  (The claim's final clause — that the vector for
`2 * sigma` is strictly longer than the vector for `sigma` — is false; see
the counterexample at `sigma = 200`.) -/
theorem claim4_amended_monotone_and_last {sigma : ℝ} (hσ : 0 < sigma) :
    (∀ i j : ℕ, i ≤ j → j < (makeGaussianVector sigma).length →
      (makeGaussianVector sigma).getD j 0 ≤ (makeGaussianVector sigma).getD i 0) ∧
    (makeGaussianVector sigma).getD ((makeGaussianVector sigma).length - 1) 0 < 0.001 := by
  constructor
  · intro i j hij hj
    rw [makeGaussianVector_length] at hj
    rw [makeGaussianVector_getD sigma hj, makeGaussianVector_getD sigma (by omega)]
    exact gauss_anti sigma (Nat.cast_nonneg i) (by exact_mod_cast hij)
  · rw [makeGaussianVector_length]
    have hk : gaussStopIndex sigma + 1 - 1 = gaussStopIndex sigma := by omega
    rw [hk, makeGaussianVector_getD sigma (by omega)]
    exact gauss_stopIndex_lt hσ

/-- Witness for the amended C4 at the concrete input `sigma = 1`. -/
theorem claim4_witness :
    (∀ i j : ℕ, i ≤ j → j < (makeGaussianVector 1).length →
      (makeGaussianVector 1).getD j 0 ≤ (makeGaussianVector 1).getD i 0) ∧
    (makeGaussianVector 1).getD ((makeGaussianVector 1).length - 1) 0 < 0.001 :=
  claim4_amended_monotone_and_last (by norm_num)

/-! Section: Claim C8 -/

/-- C8 as stated is false at the concrete input `sigma = -1 ≤ 0`: the
computation is not rejected with any configuration error — no sigma
validation exists anywhere in cld.go or handler.go — it simply proceeds and
returns the ordinary kernel vector of `sigma = 1` (of length at least 2). -/
theorem claim8_counterexample :
    makeGaussianVector (-1) = makeGaussianVector 1 ∧
      2 ≤ (makeGaussianVector (-1)).length := by
  have heq := makeGaussianVector_neg 1
  refine ⟨heq, ?_⟩
  rw [heq, makeGaussianVector_length]
  have := @one_le_gaussStopIndex 1 (by norm_num)
  omega

/-- C8 (amended): invoking the Gaussian kernel construction with
`sigma < 0` is NOT rejected: there is no validation, the computation
proceeds and returns exactly the vector computed for `-sigma` (`sigma`
enters `gauss` only through `sigma * sigma`), a normal vector of length at
least 2.  (For `sigma = 0` the Go loop never terminates, since `gauss`
returns NaN and `NaN < 0.001` is false; that behaviour is outside this
real-valued embedding.) -/
theorem claim8_amended_no_validation {sigma : ℝ} (hσ : sigma < 0) :
    makeGaussianVector sigma = makeGaussianVector (-sigma) ∧
      2 ≤ (makeGaussianVector sigma).length := by
  have heq : makeGaussianVector sigma = makeGaussianVector (-sigma) := by
    have h := makeGaussianVector_neg (-sigma)
    rw [neg_neg] at h
    exact h
  refine ⟨heq, ?_⟩
  rw [heq, makeGaussianVector_length]
  have := @one_le_gaussStopIndex (-sigma) (by linarith)
  omega

/-- Witness for the amended C8 at the concrete input `sigma = -1`. -/
theorem claim8_witness :
    makeGaussianVector (-1) = makeGaussianVector (-(-1)) ∧
      2 ≤ (makeGaussianVector (-1)).length :=
  claim8_amended_no_validation (by norm_num)

/-! Section: Raster embedding

gocv matrices are embedded as total functions `ℤ → ℤ → ℝ` (row, column)
together with explicit `rows`/`cols` counts; the flow field carries the two
vector components `(tmp[0], tmp[1])` of `GetVecfAt`. -/

/-- Go `round` (cld.go:396-402): nearest integer, ties away from zero, via
`math.Trunc` and `math.Copysign`; composed with the Go `int(...)` conversion
applied to its (integral) result. -/
noncomputable def roundGo (x : ℝ) : ℤ :=
  if (1 : ℝ) / 2 ≤ |x - ((if 0 ≤ x then ⌊x⌋ else ⌈x⌉ : ℤ) : ℝ)| then
    (if 0 ≤ x then ⌊x⌋ else ⌈x⌉) + (if 0 ≤ x then 1 else -1)
  else
    (if 0 ≤ x then ⌊x⌋ else ⌈x⌉)

/-- Go `int(...)` conversion of a float: truncation toward zero. -/
noncomputable def truncInt (x : ℝ) : ℤ :=
  if 0 ≤ x then ⌊x⌋ else ⌈x⌉

lemma truncInt_intCast (n : ℤ) : truncInt n = n := by
  unfold truncInt
  by_cases h : (0 : ℝ) ≤ (n : ℝ)
  · rw [if_pos h, Int.floor_intCast]
  · rw [if_neg h, Int.ceil_intCast]

/-- The four per-pixel accumulators of `gradientDoG` (cld.go:149-152). -/
structure DoGAcc where
  cAcc : ℝ
  sAcc : ℝ
  cW : ℝ
  sW : ℝ

/-- The step offsets `-kernel .. +kernel` of the `gradientDoG` sampling loop
(cld.go:160). -/
def dogSteps (kernel : ℕ) : List ℤ :=
  (List.range (2 * kernel + 1)).map (fun i : ℕ => (i : ℤ) - kernel)

/-- The bounds test of cld.go:164 (negated: `true` means the sample is kept,
`false` means the Go loop `continue`s, dropping the offset entirely). -/
noncomputable def stepInBounds (rows cols : ℕ) (gy gx : ℝ) (y x : ℤ) (s : ℤ) : Bool :=
  !(decide ((y : ℝ) + gy * s > (rows : ℝ) - 1 ∨ (y : ℝ) + gy * s < 0 ∨
            (x : ℝ) + gx * s > (cols : ℝ) - 1 ∨ (x : ℝ) + gx * s < 0))

/-- The sampled source value of cld.go:167:
`src.GetFloatAt(int(round(row)), int(round(col)))` with
`row = y + gradient.y*step`, `col = x + gradient.x*step`. -/
noncomputable def dogSample (src : ℤ → ℤ → ℝ) (gy gx : ℝ) (y x : ℤ) (s : ℤ) : ℝ :=
  src (roundGo ((y : ℝ) + gy * s)) (roundGo ((x : ℝ) + gx * s))

/-- The center weight of cld.go:170-175: `gvc[|step|]`, or `0.0` when the
index is past the end of `gvc`. -/
def dogCenterWeight (gvc : List ℝ) (s : ℤ) : ℝ :=
  if gvc.length ≤ s.natAbs then 0 else gvc.getD s.natAbs 0

/-- The surround weight of cld.go:177: `gvs[|step|]` (always in range, since
`|step| ≤ kernel = len(gvs)-1`; `getD` with default 0 agrees there). -/
def dogSurroundWeight (gvs : List ℝ) (s : ℤ) : ℝ :=
  gvs.getD s.natAbs 0

/-- One iteration of the `gradientDoG` sampling loop body (cld.go:160-182):
skip the offset when out of bounds, otherwise add the weighted sample to both
sums and the weights to both weight accumulators. -/
noncomputable def dogStepUpdate (src : ℤ → ℤ → ℝ) (rows cols : ℕ) (gy gx : ℝ)
    (gvc gvs : List ℝ) (y x : ℤ) (acc : DoGAcc) (s : ℤ) : DoGAcc :=
  if stepInBounds rows cols gy gx y x s then
    ⟨acc.cAcc + dogSample src gy gx y x s * dogCenterWeight gvc s,
     acc.sAcc + dogSample src gy gx y x s * dogSurroundWeight gvs s,
     acc.cW + dogCenterWeight gvc s,
     acc.sW + dogSurroundWeight gvs s⟩
  else acc

/-- The accumulator state of `gradientDoG` at pixel `(y, x)` after the full
sampling loop (cld.go:137-182): `gvc` is built from `sigmaC`, `gvs` from
`sigmaS = sigmaR * sigmaC`, `kernel = len(gvs) - 1`, and the sampling
direction is `gradient = (x: -tmp[0], y: tmp[1])` from the tangent field. -/
noncomputable def gradientDoGAcc (src : ℤ → ℤ → ℝ) (etf : ℤ → ℤ → ℝ × ℝ)
    (rows cols : ℕ) (sigmaR sigmaC : ℝ) (y x : ℤ) : DoGAcc :=
  (dogSteps ((makeGaussianVector (sigmaR * sigmaC)).length - 1)).foldl
    (dogStepUpdate src rows cols (etf y x).2 (-(etf y x).1)
      (makeGaussianVector sigmaC) (makeGaussianVector (sigmaR * sigmaC)) y x)
    ⟨0, 0, 0, 0⟩

/-- The value written by `gradientDoG` at pixel `(y, x)` (cld.go:184-188):
`vc - rho * vs`, each average normalized by its own weight accumulator. -/
noncomputable def gradientDoGPixel (src : ℤ → ℤ → ℝ) (etf : ℤ → ℤ → ℝ × ℝ)
    (rows cols : ℕ) (rho sigmaR sigmaC : ℝ) (y x : ℤ) : ℝ :=
  (gradientDoGAcc src etf rows cols sigmaR sigmaC y x).cAcc /
      (gradientDoGAcc src etf rows cols sigmaR sigmaC y x).cW -
    rho * ((gradientDoGAcc src etf rows cols sigmaR sigmaC y x).sAcc /
      (gradientDoGAcc src etf rows cols sigmaR sigmaC y x).sW)

/-- The fold of the sampling loop equals the four filtered weighted sums:
out-of-bounds offsets are dropped from the sums and from the weight
accumulators alike (they are not zero-filled). -/
lemma dogFoldl_eq (src : ℤ → ℤ → ℝ) (rows cols : ℕ) (gy gx : ℝ)
    (gvc gvs : List ℝ) (y x : ℤ) (l : List ℤ) (acc : DoGAcc) :
    l.foldl (dogStepUpdate src rows cols gy gx gvc gvs y x) acc =
      ⟨acc.cAcc + ((l.filter (stepInBounds rows cols gy gx y x)).map
          (fun s => dogSample src gy gx y x s * dogCenterWeight gvc s)).sum,
       acc.sAcc + ((l.filter (stepInBounds rows cols gy gx y x)).map
          (fun s => dogSample src gy gx y x s * dogSurroundWeight gvs s)).sum,
       acc.cW + ((l.filter (stepInBounds rows cols gy gx y x)).map
          (dogCenterWeight gvc)).sum,
       acc.sW + ((l.filter (stepInBounds rows cols gy gx y x)).map
          (dogSurroundWeight gvs)).sum⟩ := by
  induction l generalizing acc with
  | nil => simp
  | cons h t ih =>
    rw [List.foldl_cons, List.filter_cons]
    by_cases hb : stepInBounds rows cols gy gx y x h
    · rw [if_pos hb, ih]
      simp only [dogStepUpdate, if_pos hb, List.map_cons, List.sum_cons, DoGAcc.mk.injEq]
      refine ⟨by ring, by ring, by ring, by ring⟩
    · rw [if_neg hb, ih]
      simp only [dogStepUpdate, if_neg hb]

/-! Section: Claim C1 -/

/-- C1: at every pixel, `gradientDoG` samples the source along the direction
perpendicular to the tangent-field vector (the rotated `gradient`
`(-tmp[0], tmp[1])` is orthogonal to the tangent `(tmp[1], tmp[0])` used by
`flowDoG`), at integer offsets `-kernel..kernel` with
`kernel = len(gvs) - 1`; it accumulates a center sum weighted by `gvc`
(built from `sigmaC`) and a surround sum weighted by `gvs` (built from
`sigmaR * sigmaC`); out-of-bounds offsets are dropped from both the sums and
the weight accumulators; each sum is normalized by its own accumulated
weight; and the pixel value is `center_avg - rho * surround_avg`. -/
theorem claim1_gradientDoG_filtered_sums (src : ℤ → ℤ → ℝ) (etf : ℤ → ℤ → ℝ × ℝ)
    (rows cols : ℕ) (rho sigmaR sigmaC : ℝ) (y x : ℤ) :
    gradientDoGPixel src etf rows cols rho sigmaR sigmaC y x =
      (((dogSteps ((makeGaussianVector (sigmaR * sigmaC)).length - 1)).filter
          (stepInBounds rows cols (etf y x).2 (-(etf y x).1) y x)).map
          (fun s => dogSample src (etf y x).2 (-(etf y x).1) y x s *
            dogCenterWeight (makeGaussianVector sigmaC) s)).sum /
        (((dogSteps ((makeGaussianVector (sigmaR * sigmaC)).length - 1)).filter
          (stepInBounds rows cols (etf y x).2 (-(etf y x).1) y x)).map
          (dogCenterWeight (makeGaussianVector sigmaC))).sum -
      rho *
        ((((dogSteps ((makeGaussianVector (sigmaR * sigmaC)).length - 1)).filter
            (stepInBounds rows cols (etf y x).2 (-(etf y x).1) y x)).map
            (fun s => dogSample src (etf y x).2 (-(etf y x).1) y x s *
              dogSurroundWeight (makeGaussianVector (sigmaR * sigmaC)) s)).sum /
          (((dogSteps ((makeGaussianVector (sigmaR * sigmaC)).length - 1)).filter
            (stepInBounds rows cols (etf y x).2 (-(etf y x).1) y x)).map
            (dogSurroundWeight (makeGaussianVector (sigmaR * sigmaC)))).sum) ∧
    (-(etf y x).1) * (etf y x).2 + (etf y x).2 * (etf y x).1 = 0 := by
  constructor
  · unfold gradientDoGPixel gradientDoGAcc
    rw [dogFoldl_eq]
    simp only [zero_add]
  · ring

/-! Section: Claim C5 -/

/-- The per-pixel step function of `binaryThreshold` (cld.go:305-331):
`dst = 0` if `src < tau`, else `255`. -/
noncomputable def binaryThresholdMat (src : ℤ → ℤ → ℝ) (tau : ℝ) : ℤ → ℤ → ℕ :=
  fun y x => if src y x < tau then 0 else 255

/-- C5: `binaryThreshold` sets a pixel to 0 exactly when the source value is
strictly below `tau`, and to 255 otherwise; the output is two-valued for
every `tau`; and when the source values lie in `[0,1]`, `tau ≤ 0` yields 255
everywhere while `tau > 1` yields 0 everywhere. -/
theorem claim5_binaryThreshold (src : ℤ → ℤ → ℝ) (tau : ℝ) (y x : ℤ) :
    (binaryThresholdMat src tau y x = 0 ↔ src y x < tau) ∧
    (binaryThresholdMat src tau y x = 0 ∨ binaryThresholdMat src tau y x = 255) ∧
    (0 ≤ src y x ∧ src y x ≤ 1 →
      (tau ≤ 0 → binaryThresholdMat src tau y x = 255) ∧
      (1 < tau → binaryThresholdMat src tau y x = 0)) := by
  unfold binaryThresholdMat
  by_cases h : src y x < tau
  · refine ⟨by simp [h], Or.inl (by simp [h]), fun hin => ⟨fun htau => ?_, fun _ => by simp [h]⟩⟩
    exact absurd h (not_lt.mpr (le_trans htau hin.1))
  · refine ⟨by simp [h], Or.inr (by simp [h]), fun hin => ⟨fun _ => by simp [h], fun htau => ?_⟩⟩
    exact absurd (lt_of_le_of_lt hin.2 htau) h

/-- Witness for C5: a one-pixel raster with value `1/2 ∈ [0,1]`, once with
`tau = -1 ≤ 0` (yields 255) and once with `tau = 2 > 1` (yields 0). -/
theorem claim5_witness :
    binaryThresholdMat (fun _ _ => 1 / 2) (-1) 0 0 = 255 ∧
    binaryThresholdMat (fun _ _ => 1 / 2) 2 0 0 = 0 := by
  constructor
  · exact ((claim5_binaryThreshold (fun _ _ => 1 / 2) (-1) 0 0).2.2
      ⟨by norm_num, by norm_num⟩).1 (by norm_num)
  · exact ((claim5_binaryThreshold (fun _ _ => 1 / 2) 2 0 0).2.2
      ⟨by norm_num, by norm_num⟩).2 (by norm_num)

/-! Section: flowDoG (cld.go:198-302) -/

/-- One directional walk of `flowDoG` (cld.go:219-248 forward with
`sign = 1`; cld.go:250-279 backward with `sign = -1`).  `pos` is the `(x, y)`
float position, the fuel (first argument) is the number of loop iterations
remaining (`kernelHalf` initially), `step` is the loop counter used as the
weight index.  The walk stops early on a zero direction vector, on leaving
the raster bounds, or when the moved position rounds outside the raster. -/
noncomputable def flowWalk (src : ℤ → ℤ → ℝ) (etf : ℤ → ℤ → ℝ × ℝ)
    (width height : ℕ) (gausVec : List ℝ) (sign : ℝ) :
    ℕ → ℕ → ℝ × ℝ → ℝ × ℝ → ℝ × ℝ
  | 0, _, _, acc => acc
  | n + 1, step, pos, acc =>
    if sign * (etf (truncInt pos.2) (truncInt pos.1)).2 = 0 ∧
        sign * (etf (truncInt pos.2) (truncInt pos.1)).1 = 0 then acc
    else if pos.1 > (width : ℝ) - 1 ∨ pos.1 < 0 ∨
        pos.2 > (height : ℝ) - 1 ∨ pos.2 < 0 then acc
    else
      if roundGo (pos.1 + sign * (etf (truncInt pos.2) (truncInt pos.1)).2) < 0 ∨
          roundGo (pos.1 + sign * (etf (truncInt pos.2) (truncInt pos.1)).2) > (width : ℤ) - 1 ∨
          roundGo (pos.2 + sign * (etf (truncInt pos.2) (truncInt pos.1)).1) < 0 ∨
          roundGo (pos.2 + sign * (etf (truncInt pos.2) (truncInt pos.1)).1) > (height : ℤ) - 1 then
        (acc.1 + src (truncInt pos.2) (truncInt pos.1) * gausVec.getD step 0,
         acc.2 + gausVec.getD step 0)
      else
        flowWalk src etf width height gausVec sign n (step + 1)
          (pos.1 + sign * (etf (truncInt pos.2) (truncInt pos.1)).2,
           pos.2 + sign * (etf (truncInt pos.2) (truncInt pos.1)).1)
          (acc.1 + src (truncInt pos.2) (truncInt pos.1) * gausVec.getD step 0,
           acc.2 + gausVec.getD step 0)

/-- The accumulator `(gauAcc, gauWeightAcc)` of `flowDoG` at pixel `(y, x)`:
center tap `(-gausVec[0]*src(y,x), -gausVec[0])` (cld.go:216-217), then the
forward walk, then the backward walk, both for up to
`kernelHalf = len(gausVec) - 1` steps from `(x, y)`. -/
noncomputable def flowDoGAcc (src : ℤ → ℤ → ℝ) (etf : ℤ → ℤ → ℝ × ℝ)
    (width height : ℕ) (sigmaM : ℝ) (y x : ℤ) : ℝ × ℝ :=
  flowWalk src etf width height (makeGaussianVector sigmaM) (-1)
    ((makeGaussianVector sigmaM).length - 1) 0 ((x : ℝ), (y : ℝ))
    (flowWalk src etf width height (makeGaussianVector sigmaM) 1
      ((makeGaussianVector sigmaM).length - 1) 0 ((x : ℝ), (y : ℝ))
      (-(makeGaussianVector sigmaM).getD 0 0 * src y x,
       -(makeGaussianVector sigmaM).getD 0 0))

/-- The value written by `flowDoG` at pixel `(y, x)` before the min-max
rescale (cld.go:281-293): `1.0` if the normalized average is positive, else
`1.0 + tanh(average)`. -/
noncomputable def flowDoGPixel (src : ℤ → ℤ → ℝ) (etf : ℤ → ℤ → ℝ × ℝ)
    (width height : ℕ) (sigmaM : ℝ) (y x : ℤ) : ℝ :=
  if (flowDoGAcc src etf width height sigmaM y x).1 /
      (flowDoGAcc src etf width height sigmaM y x).2 > 0 then 1
  else 1 + Real.tanh ((flowDoGAcc src etf width height sigmaM y x).1 /
      (flowDoGAcc src etf width height sigmaM y x).2)

lemma makeGaussianVector_getD_nonneg (sigma : ℝ) (i : ℕ) :
    0 ≤ (makeGaussianVector sigma).getD i 0 := by
  by_cases h : i < gaussStopIndex sigma + 1
  · rw [makeGaussianVector_getD sigma h]
    exact gauss_nonneg _ _ _
  · rw [List.getD_eq_default]
    rw [makeGaussianVector_length]
    omega

/-- A walk never decreases the weight accumulator (all Gaussian weights are
nonnegative). -/
lemma flowWalk_weight_mono (src : ℤ → ℤ → ℝ) (etf : ℤ → ℤ → ℝ × ℝ)
    (width height : ℕ) (gausVec : List ℝ) (hg : ∀ i, 0 ≤ gausVec.getD i 0)
    (sign : ℝ) :
    ∀ (n step : ℕ) (pos acc : ℝ × ℝ),
      acc.2 ≤ (flowWalk src etf width height gausVec sign n step pos acc).2 := by
  intro n
  induction n with
  | zero => intro step pos acc; exact le_refl _
  | succ n ih =>
    intro step pos acc
    simp only [flowWalk]
    split_ifs with h1 h2 h3
    · exact le_refl _
    · exact le_refl _
    · have := hg step
      simp only
      linarith
    · refine le_trans ?_ (ih (step + 1) _ _)
      have := hg step
      simp only
      linarith

/-- If at the current position the direction vector is nonzero and the
position is inside the raster, one walk iteration adds at least the current
Gaussian weight to the weight accumulator. -/
lemma flowWalk_weight_step (src : ℤ → ℤ → ℝ) (etf : ℤ → ℤ → ℝ × ℝ)
    (width height : ℕ) (gausVec : List ℝ) (hg : ∀ i, 0 ≤ gausVec.getD i 0)
    (sign : ℝ) (n step : ℕ) (pos acc : ℝ × ℝ)
    (hdir : ¬(sign * (etf (truncInt pos.2) (truncInt pos.1)).2 = 0 ∧
        sign * (etf (truncInt pos.2) (truncInt pos.1)).1 = 0))
    (hin : ¬(pos.1 > (width : ℝ) - 1 ∨ pos.1 < 0 ∨
        pos.2 > (height : ℝ) - 1 ∨ pos.2 < 0)) :
    acc.2 + gausVec.getD step 0 ≤
      (flowWalk src etf width height gausVec sign (n + 1) step pos acc).2 := by
  simp only [flowWalk]
  rw [if_neg hdir, if_neg hin]
  split_ifs with h3
  · exact le_refl _
  · have h := flowWalk_weight_mono src etf width height gausVec hg sign n (step + 1)
      (pos.1 + sign * (etf (truncInt pos.2) (truncInt pos.1)).2,
       pos.2 + sign * (etf (truncInt pos.2) (truncInt pos.1)).1)
      (acc.1 + src (truncInt pos.2) (truncInt pos.1) * gausVec.getD step 0,
       acc.2 + gausVec.getD step 0)
    simpa using h

/-- A walk starting where the tangent-field vector is exactly zero returns
its accumulator unchanged (cld.go:225-227 and cld.go:256-258). -/
lemma flowWalk_of_dir_zero (src : ℤ → ℤ → ℝ) (etf : ℤ → ℤ → ℝ × ℝ)
    (width height : ℕ) (gausVec : List ℝ) (sign : ℝ) (pos acc : ℝ × ℝ)
    (h : etf (truncInt pos.2) (truncInt pos.1) = (0, 0)) (n step : ℕ) :
    flowWalk src etf width height gausVec sign n step pos acc = acc := by
  cases n with
  | zero => rfl
  | succ n =>
    simp only [flowWalk, h]
    rw [if_pos (by norm_num)]

/-! Section: Claim C7 -/

lemma zero_mem_dogSteps (kernel : ℕ) : (0 : ℤ) ∈ dogSteps kernel := by
  unfold dogSteps
  exact List.mem_map.mpr ⟨kernel, List.mem_range.mpr (by omega), sub_self _⟩

lemma stepInBounds_zero (rows cols : ℕ) (gy gx : ℝ) (y x : ℤ)
    (hy0 : 0 ≤ y) (hy : y < (rows : ℤ)) (hx0 : 0 ≤ x) (hx : x < (cols : ℤ)) :
    stepInBounds rows cols gy gx y x 0 = true := by
  have hyr : (y : ℝ) ≤ (rows : ℝ) - 1 := by
    have h1 : y ≤ (rows : ℤ) - 1 := by omega
    have h2 : (y : ℝ) ≤ (((rows : ℤ) - 1 : ℤ) : ℝ) := by exact_mod_cast h1
    push_cast at h2
    linarith
  have hxr : (x : ℝ) ≤ (cols : ℝ) - 1 := by
    have h1 : x ≤ (cols : ℤ) - 1 := by omega
    have h2 : (x : ℝ) ≤ (((cols : ℤ) - 1 : ℤ) : ℝ) := by exact_mod_cast h1
    push_cast at h2
    linarith
  have hy0r : (0 : ℝ) ≤ (y : ℝ) := by exact_mod_cast hy0
  have hx0r : (0 : ℝ) ≤ (x : ℝ) := by exact_mod_cast hx0
  unfold stepInBounds
  simp only [Int.cast_zero, mul_zero, Bool.not_eq_true', decide_eq_false_iff_not]
  push_neg
  refine ⟨by linarith, by linarith, by linarith, by linarith⟩

lemma dogCenterWeight_nonneg {gvc : List ℝ} (h : ∀ i, 0 ≤ gvc.getD i 0) (s : ℤ) :
    0 ≤ dogCenterWeight gvc s := by
  unfold dogCenterWeight
  split_ifs
  · exact le_refl 0
  · exact h _

lemma dogSurroundWeight_nonneg {gvs : List ℝ} (h : ∀ i, 0 ≤ gvs.getD i 0) (s : ℤ) :
    0 ≤ dogSurroundWeight gvs s :=
  h _

lemma dogCenterWeight_zero_pos {sigma : ℝ} (hσ : 0 < sigma) :
    0 < dogCenterWeight (makeGaussianVector sigma) 0 := by
  unfold dogCenterWeight
  rw [Int.natAbs_zero, if_neg (by rw [makeGaussianVector_length]; omega),
    makeGaussianVector_getD sigma (by omega)]
  rw [Nat.cast_zero]
  exact gauss_pos 0 (ne_of_gt hσ)

lemma dogSurroundWeight_zero_pos {sigma : ℝ} (hσ : 0 < sigma) :
    0 < dogSurroundWeight (makeGaussianVector sigma) 0 := by
  unfold dogSurroundWeight
  rw [Int.natAbs_zero, makeGaussianVector_getD sigma (by omega)]
  rw [Nat.cast_zero]
  exact gauss_pos 0 (ne_of_gt hσ)

/-- C7: no per-pixel division divides by zero.  In `gradientDoG` the center
and surround weight accumulators at any in-range pixel are strictly
positive, because the offset-0 sample is always within bounds and every
Gaussian weight is positive.  In `flowDoG` the weight accumulator at the
final division is `-gausVec[0]` when the local direction vector is zero and
at least `gausVec[0]` otherwise, and in both cases it is nonzero. -/
theorem claim7_no_division_by_zero (src dog : ℤ → ℤ → ℝ) (etf : ℤ → ℤ → ℝ × ℝ)
    (rows cols : ℕ) (sigmaR sigmaC sigmaM : ℝ) (y x : ℤ)
    (hR : 0 < sigmaR) (hC : 0 < sigmaC) (hM : 0 < sigmaM)
    (hy0 : 0 ≤ y) (hy : y < (rows : ℤ)) (hx0 : 0 ≤ x) (hx : x < (cols : ℤ)) :
    0 < (gradientDoGAcc src etf rows cols sigmaR sigmaC y x).cW ∧
    0 < (gradientDoGAcc src etf rows cols sigmaR sigmaC y x).sW ∧
    (etf y x = (0, 0) →
      (flowDoGAcc dog etf cols rows sigmaM y x).2 =
        -(makeGaussianVector sigmaM).getD 0 0) ∧
    (etf y x ≠ (0, 0) →
      (makeGaussianVector sigmaM).getD 0 0 ≤ (flowDoGAcc dog etf cols rows sigmaM y x).2) ∧
    (flowDoGAcc dog etf cols rows sigmaM y x).2 ≠ 0 := by
  have hS : 0 < sigmaR * sigmaC := mul_pos hR hC
  have hg0 : 0 < (makeGaussianVector sigmaM).getD 0 0 := by
    rw [makeGaussianVector_getD sigmaM (by omega), Nat.cast_zero]
    exact gauss_pos 0 (ne_of_gt hM)
  have hmemf : (0 : ℤ) ∈ (dogSteps ((makeGaussianVector (sigmaR * sigmaC)).length - 1)).filter
      (stepInBounds rows cols (etf y x).2 (-(etf y x).1) y x) :=
    List.mem_filter.mpr ⟨zero_mem_dogSteps _,
      stepInBounds_zero rows cols (etf y x).2 (-(etf y x).1) y x hy0 hy hx0 hx⟩
  have hcnn := makeGaussianVector_getD_nonneg sigmaC
  have hsnn := makeGaussianVector_getD_nonneg (sigmaR * sigmaC)
  have hmnn := makeGaussianVector_getD_nonneg sigmaM
  have hcw : 0 < (gradientDoGAcc src etf rows cols sigmaR sigmaC y x).cW := by
    unfold gradientDoGAcc
    rw [dogFoldl_eq]
    simp only [zero_add]
    refine lt_of_lt_of_le (dogCenterWeight_zero_pos hC) (List.single_le_sum ?_ _ ?_)
    · intro v hv
      rcases List.mem_map.mp hv with ⟨s, _, rfl⟩
      exact dogCenterWeight_nonneg hcnn s
    · exact List.mem_map_of_mem _ hmemf
  have hsw : 0 < (gradientDoGAcc src etf rows cols sigmaR sigmaC y x).sW := by
    unfold gradientDoGAcc
    rw [dogFoldl_eq]
    simp only [zero_add]
    refine lt_of_lt_of_le (dogSurroundWeight_zero_pos hS) (List.single_le_sum ?_ _ ?_)
    · intro v hv
      rcases List.mem_map.mp hv with ⟨s, _, rfl⟩
      exact dogSurroundWeight_nonneg hsnn s
    · exact List.mem_map_of_mem _ hmemf
  have hstart : etf (truncInt (((x : ℝ), (y : ℝ)) : ℝ × ℝ).2)
      (truncInt (((x : ℝ), (y : ℝ)) : ℝ × ℝ).1) = etf y x := by
    simp only [truncInt_intCast]
  have hzero : etf y x = (0, 0) →
      (flowDoGAcc dog etf cols rows sigmaM y x).2 =
        -(makeGaussianVector sigmaM).getD 0 0 := by
    intro h0
    unfold flowDoGAcc
    rw [flowWalk_of_dir_zero _ _ _ _ _ _ _ _ (hstart.trans h0),
      flowWalk_of_dir_zero _ _ _ _ _ _ _ _ (hstart.trans h0)]
  have hk : 1 ≤ (makeGaussianVector sigmaM).length - 1 := by
    rw [makeGaussianVector_length]
    have := one_le_gaussStopIndex hM
    omega
  have hnonzero : etf y x ≠ (0, 0) →
      (makeGaussianVector sigmaM).getD 0 0 ≤ (flowDoGAcc dog etf cols rows sigmaM y x).2 := by
    intro hne
    obtain ⟨m, hm⟩ : ∃ m, (makeGaussianVector sigmaM).length - 1 = m + 1 :=
      ⟨(makeGaussianVector sigmaM).length - 2, by omega⟩
    have hdir : ∀ sign : ℝ, sign ≠ 0 →
        ¬(sign * (etf (truncInt (((x : ℝ), (y : ℝ)) : ℝ × ℝ).2)
            (truncInt (((x : ℝ), (y : ℝ)) : ℝ × ℝ).1)).2 = 0 ∧
          sign * (etf (truncInt (((x : ℝ), (y : ℝ)) : ℝ × ℝ).2)
            (truncInt (((x : ℝ), (y : ℝ)) : ℝ × ℝ).1)).1 = 0) := by
      intro sign hsign hcon
      rw [hstart] at hcon
      rcases hcon with ⟨h2, h1⟩
      rcases mul_eq_zero.mp h2 with h | h
      · exact hsign h
      · rcases mul_eq_zero.mp h1 with h' | h'
        · exact hsign h'
        · exact hne (Prod.ext h' h)
    have hin : ¬((((x : ℝ), (y : ℝ)) : ℝ × ℝ).1 > (cols : ℝ) - 1 ∨
        (((x : ℝ), (y : ℝ)) : ℝ × ℝ).1 < 0 ∨
        (((x : ℝ), (y : ℝ)) : ℝ × ℝ).2 > (rows : ℝ) - 1 ∨
        (((x : ℝ), (y : ℝ)) : ℝ × ℝ).2 < 0) := by
      have hyr : (y : ℝ) ≤ (rows : ℝ) - 1 := by
        have h1 : y ≤ (rows : ℤ) - 1 := by omega
        have h2 : (y : ℝ) ≤ (((rows : ℤ) - 1 : ℤ) : ℝ) := by exact_mod_cast h1
        push_cast at h2
        linarith
      have hxr : (x : ℝ) ≤ (cols : ℝ) - 1 := by
        have h1 : x ≤ (cols : ℤ) - 1 := by omega
        have h2 : (x : ℝ) ≤ (((cols : ℤ) - 1 : ℤ) : ℝ) := by exact_mod_cast h1
        push_cast at h2
        linarith
      have hy0r : (0 : ℝ) ≤ (y : ℝ) := by exact_mod_cast hy0
      have hx0r : (0 : ℝ) ≤ (x : ℝ) := by exact_mod_cast hx0
      push_neg
      refine ⟨by linarith, by linarith, by linarith, by linarith⟩
    unfold flowDoGAcc
    rw [hm]
    have hwalk1 := flowWalk_weight_step dog etf cols rows (makeGaussianVector sigmaM)
      hmnn 1 m 0 ((x : ℝ), (y : ℝ))
      (-(makeGaussianVector sigmaM).getD 0 0 * dog y x,
       -(makeGaussianVector sigmaM).getD 0 0)
      (hdir 1 one_ne_zero) hin
    have hwalk2 := flowWalk_weight_step dog etf cols rows (makeGaussianVector sigmaM)
      hmnn (-1) m 0 ((x : ℝ), (y : ℝ))
      (flowWalk dog etf cols rows (makeGaussianVector sigmaM) 1 (m + 1) 0
        ((x : ℝ), (y : ℝ))
        (-(makeGaussianVector sigmaM).getD 0 0 * dog y x,
         -(makeGaussianVector sigmaM).getD 0 0))
      (hdir (-1) (by norm_num)) hin
    have hsnd : (-(makeGaussianVector sigmaM).getD 0 0 * dog y x,
        -(makeGaussianVector sigmaM).getD 0 0).2 = -(makeGaussianVector sigmaM).getD 0 0 := rfl
    rw [hsnd] at hwalk1
    linarith
  refine ⟨hcw, hsw, hzero, hnonzero, ?_⟩
  by_cases h0 : etf y x = (0, 0)
  · rw [hzero h0]
    exact neg_ne_zero.mpr (ne_of_gt hg0)
  · have := hnonzero h0
    linarith [hg0]

/-- Witness for C7 at a concrete one-pixel raster with a zero tangent
field and unit sigmas. -/
theorem claim7_witness :
    0 < (gradientDoGAcc (fun _ _ => 0) (fun _ _ => ((0 : ℝ), (0 : ℝ))) 1 1 1 1 0 0).cW ∧
    0 < (gradientDoGAcc (fun _ _ => 0) (fun _ _ => ((0 : ℝ), (0 : ℝ))) 1 1 1 1 0 0).sW ∧
    ((fun _ _ => ((0 : ℝ), (0 : ℝ))) (0 : ℤ) (0 : ℤ) = ((0 : ℝ), (0 : ℝ)) →
      (flowDoGAcc (fun _ _ => 0) (fun _ _ => ((0 : ℝ), (0 : ℝ))) 1 1 1 0 0).2 =
        -(makeGaussianVector 1).getD 0 0) ∧
    ((fun _ _ => ((0 : ℝ), (0 : ℝ))) (0 : ℤ) (0 : ℤ) ≠ ((0 : ℝ), (0 : ℝ)) →
      (makeGaussianVector 1).getD 0 0 ≤
        (flowDoGAcc (fun _ _ => 0) (fun _ _ => ((0 : ℝ), (0 : ℝ))) 1 1 1 0 0).2) ∧
    (flowDoGAcc (fun _ _ => 0) (fun _ _ => ((0 : ℝ), (0 : ℝ))) 1 1 1 0 0).2 ≠ 0 :=
  claim7_no_division_by_zero (fun _ _ => 0) (fun _ _ => 0) (fun _ _ => ((0 : ℝ), (0 : ℝ)))
    1 1 1 1 1 0 0 (by norm_num) (by norm_num) (by norm_num)
    (by norm_num) (by norm_num) (by norm_num) (by norm_num)

/-! Section: Whole-raster operations and the pipeline (cld.go:108-134, 333-353) -/

/-- Row-major list of all raster cell values. -/
noncomputable def matVals (m : ℤ → ℤ → ℝ) (rows cols : ℕ) : List ℝ :=
  (List.range (rows * cols)).map
    (fun i : ℕ => m ((i / cols : ℕ) : ℤ) ((i % cols : ℕ) : ℤ))

noncomputable def matMin (m : ℤ → ℤ → ℝ) (rows cols : ℕ) : ℝ :=
  (matVals m rows cols).foldl min ((matVals m rows cols).headD 0)

noncomputable def matMax (m : ℤ → ℤ → ℝ) (rows cols : ℕ) : ℝ :=
  (matVals m rows cols).foldl max ((matVals m rows cols).headD 0)

/-- Modelled from the spec: `gocv.Normalize(dst, dst, 0.0, 1.0, gocv.NormMinMax)`
(cld.go:299) is an external gocv/OpenCV call, not part of this repository's
sources; per the spec it rescales the full raster to `[0,1]` by min-max
normalization, `v ↦ (v - min) / (max - min)`. -/
noncomputable def normMinMax (m : ℤ → ℤ → ℝ) (rows cols : ℕ) : ℤ → ℤ → ℝ :=
  fun y x => (m y x - matMin m rows cols) / (matMax m rows cols - matMin m rows cols)

/-- The `options` struct (cld.go:48-61). -/
structure CldOptions where
  sigmaR : ℝ
  sigmaM : ℝ
  sigmaC : ℝ
  rho : ℝ
  tau : ℝ
  blurSize : ℤ
  etfKernel : ℤ
  etfIteration : ℤ
  fDogIteration : ℤ
  antiAlias : Bool
  visEtf : Bool
  visResult : Bool

/-- The mutable state of a `Cld` value (cld.go:36-44): the working image,
the result raster, the two DoG rasters, the shared dimensions and the
(fixed) tangent flow field. -/
structure CldState where
  image : ℤ → ℤ → ℝ
  result : ℤ → ℤ → ℕ
  dog : ℤ → ℤ → ℝ
  fDog : ℤ → ℤ → ℝ
  rows : ℕ
  cols : ℕ
  etf : ℤ → ℤ → ℝ × ℝ

/-- Method `generate` (cld.go:127-134): scale the working image by `1/255` into a
float raster, run `gradientDoG` into `dog`, `flowDoG` (with its final
min-max rescale, taken here in the intended writes-then-rescale order; the
code's actual rescale-vs-barrier race is treated separately) into `fDog`,
and `binaryThreshold` into `result`. -/
noncomputable def generate (opts : CldOptions) (s : CldState) : CldState :=
  { s with
    dog := fun y x =>
      gradientDoGPixel (fun y' x' => s.image y' x' * (1 / 255)) s.etf
        s.rows s.cols opts.rho opts.sigmaR opts.sigmaC y x,
    fDog := normMinMax
      (fun y x =>
        flowDoGPixel
          (fun y' x' =>
            gradientDoGPixel (fun y'' x'' => s.image y'' x'' * (1 / 255)) s.etf
              s.rows s.cols opts.rho opts.sigmaR opts.sigmaC y' x')
          s.etf s.cols s.rows opts.sigmaM y x)
      s.rows s.cols,
    result := binaryThresholdMat
      (normMinMax
        (fun y x =>
          flowDoGPixel
            (fun y' x' =>
              gradientDoGPixel (fun y'' x'' => s.image y'' x'' * (1 / 255)) s.etf
                s.rows s.cols opts.rho opts.sigmaR opts.sigmaC y' x')
            s.etf s.cols s.rows opts.sigmaM y x)
        s.rows s.cols)
      opts.tau }

/-- Method `combineImage` (cld.go:333-353) in the intended zero-then-blur order:
zero the working raster wherever the result raster is 0, then apply the
external `gocv.GaussianBlur`, abstracted as the `blur` parameter (the code's
actual blur-vs-barrier race is treated separately). -/
def combineImage (blur : (ℤ → ℤ → ℝ) → (ℤ → ℤ → ℝ)) (s : CldState) : CldState :=
  { s with image := blur (fun y x => if s.result y x = 0 then 0 else s.image y x) }

/-- The refinement loop of `GenerateCld` (cld.go:112-115): each iteration is
`combineImage` followed by `generate`. -/
noncomputable def generateLoopAux (blur : (ℤ → ℤ → ℝ) → (ℤ → ℤ → ℝ))
    (opts : CldOptions) : ℕ → CldState → CldState
  | 0, s => s
  | n + 1, s => generateLoopAux blur opts n (generate opts (combineImage blur s))

/-- Method `GenerateCld` up to (and excluding) post-processing (cld.go:108-116):
one initial `generate`, then — under the `fDogIteration > 0` guard — the
refinement loop for `fDogIteration` iterations. -/
noncomputable def generateCldLoop (blur : (ℤ → ℤ → ℝ) → (ℤ → ℤ → ℝ))
    (opts : CldOptions) (s : CldState) : CldState :=
  if 0 < opts.fDogIteration then
    generateLoopAux blur opts opts.fDogIteration.toNat (generate opts s)
  else generate opts s

/-- How many times `GenerateCld` invokes `combineImage` (cld.go:111-116):
once per loop iteration, and the loop is skipped unless
`fDogIteration > 0`. -/
def combineImageInvocations (opts : CldOptions) : ℕ :=
  if 0 < opts.fDogIteration then opts.fDogIteration.toNat else 0

lemma generateLoopAux_eq_iterate (blur : (ℤ → ℤ → ℝ) → (ℤ → ℤ → ℝ))
    (opts : CldOptions) (n : ℕ) (s : CldState) :
    generateLoopAux blur opts n s =
      (fun t => generate opts (combineImage blur t))^[n] s := by
  induction n generalizing s with
  | zero => rfl
  | succ n ih =>
    rw [Function.iterate_succ_apply]
    exact ih (generate opts (combineImage blur s))

/-! Section: Claim C6 -/

/-- C6: `GenerateCld` performs one initial filter pass (`generate`, i.e.
`gradientDoG` then `flowDoG` then `binaryThreshold`) followed by exactly
`fDogIteration` repetitions of a recombination step followed by another
filter pass; with `fDogIteration = 0` the result is exactly the single-pass
filter output and `combineImage` is never invoked. -/
theorem claim6_generateCld_structure (blur : (ℤ → ℤ → ℝ) → (ℤ → ℤ → ℝ))
    (opts : CldOptions) (s : CldState) :
    generateCldLoop blur opts s =
      (fun t => generate opts (combineImage blur t))^[combineImageInvocations opts]
        (generate opts s) ∧
    (0 ≤ opts.fDogIteration →
      (combineImageInvocations opts : ℤ) = opts.fDogIteration) ∧
    (opts.fDogIteration = 0 →
      generateCldLoop blur opts s = generate opts s ∧
        combineImageInvocations opts = 0) := by
  unfold generateCldLoop combineImageInvocations
  by_cases h : 0 < opts.fDogIteration
  · rw [if_pos h, if_pos h]
    refine ⟨generateLoopAux_eq_iterate blur opts _ _, fun _ => ?_, fun h0 => absurd h0 (by omega)⟩
    rw [Int.toNat_of_nonneg (by omega)]
  · rw [if_neg h, if_neg h]
    exact ⟨rfl, fun h0 => by omega, fun _ => ⟨rfl, rfl⟩⟩

/-- Witness for C6 at a concrete one-pixel state with `fDogIteration = 0`
and the identity standing in for the external blur. -/
theorem claim6_witness :
    generateCldLoop (fun f => f) ⟨1, 1, 1, 1, 1, 3, 1, 1, 0, false, false, false⟩
        ⟨fun _ _ => 0, fun _ _ => 255, fun _ _ => 0, fun _ _ => 0, 1, 1,
          fun _ _ => ((0 : ℝ), (0 : ℝ))⟩ =
      (fun t => generate ⟨1, 1, 1, 1, 1, 3, 1, 1, 0, false, false, false⟩
          (combineImage (fun f => f) t))^[combineImageInvocations
            ⟨1, 1, 1, 1, 1, 3, 1, 1, 0, false, false, false⟩]
        (generate ⟨1, 1, 1, 1, 1, 3, 1, 1, 0, false, false, false⟩
          ⟨fun _ _ => 0, fun _ _ => 255, fun _ _ => 0, fun _ _ => 0, 1, 1,
            fun _ _ => ((0 : ℝ), (0 : ℝ))⟩) ∧
    (0 ≤ (⟨1, 1, 1, 1, 1, 3, 1, 1, 0, false, false, false⟩ : CldOptions).fDogIteration →
      ((combineImageInvocations ⟨1, 1, 1, 1, 1, 3, 1, 1, 0, false, false, false⟩ : ℕ) : ℤ) =
        (⟨1, 1, 1, 1, 1, 3, 1, 1, 0, false, false, false⟩ : CldOptions).fDogIteration) ∧
    ((⟨1, 1, 1, 1, 1, 3, 1, 1, 0, false, false, false⟩ : CldOptions).fDogIteration = 0 →
      generateCldLoop (fun f => f) ⟨1, 1, 1, 1, 1, 3, 1, 1, 0, false, false, false⟩
          ⟨fun _ _ => 0, fun _ _ => 255, fun _ _ => 0, fun _ _ => 0, 1, 1,
            fun _ _ => ((0 : ℝ), (0 : ℝ))⟩ =
        generate ⟨1, 1, 1, 1, 1, 3, 1, 1, 0, false, false, false⟩
          ⟨fun _ _ => 0, fun _ _ => 255, fun _ _ => 0, fun _ _ => 0, 1, 1,
            fun _ _ => ((0 : ℝ), (0 : ℝ))⟩ ∧
        combineImageInvocations ⟨1, 1, 1, 1, 1, 3, 1, 1, 0, false, false, false⟩ = 0) :=
  claim6_generateCld_structure (fun f => f)
    ⟨1, 1, 1, 1, 1, 3, 1, 1, 0, false, false, false⟩
    ⟨fun _ _ => 0, fun _ _ => 255, fun _ _ => 0, fun _ _ => 0, 1, 1,
      fun _ _ => ((0 : ℝ), (0 : ℝ))⟩

/-! Section: Claims C2 and C9: the missing barrier before the whole-raster calls

`flowDoG` calls `gocv.Normalize` at cld.go:299 BEFORE `c.wg.Wait()` at
cld.go:301, and `combineImage` calls `gocv.GaussianBlur` at cld.go:351
BEFORE `c.wg.Wait()` at cld.go:352.  In both cases the whole-raster
operation races the still-running per-pixel goroutines.  The two models
below make the scheduler explicit through a `done` predicate marking the
goroutines that happened to finish before the whole-raster call ran. -/

/-- The raster produced by `flowDoG` under the actual code order
(cld.go:210-301): per-pixel writes race the min-max rescale.  A pixel whose
goroutine completed before the rescale (`done`) holds the rescaled value
(computed from the mixed raster of new and stale values); a pixel written
after the rescale holds its raw flow value. -/
noncomputable def flowDoGRacyOutput (raw prior : ℤ → ℤ → ℝ) (rows cols : ℕ)
    (done : ℤ → ℤ → Bool) : ℤ → ℤ → ℝ :=
  fun y x =>
    if done y x then
      normMinMax (fun y' x' => if done y' x' then raw y' x' else prior y' x') rows cols y x
    else raw y x

/-- The working raster produced by `combineImage` under the actual code
order (cld.go:334-352): the blur reads the partially zeroed raster (only
the `done` goroutines have zeroed their edge pixels), and each late
goroutine then re-zeroes its own pixel on top of the blurred raster. -/
def combineImageRacy (blur : (ℤ → ℤ → ℝ) → (ℤ → ℤ → ℝ)) (img : ℤ → ℤ → ℝ)
    (result : ℤ → ℤ → ℕ) (done : ℤ → ℤ → Bool) : ℤ → ℤ → ℝ :=
  fun y x =>
    if ¬ done y x ∧ result y x = 0 then 0
    else blur (fun y' x' => if done y' x' ∧ result y' x' = 0 then 0 else img y' x') y x

/-- C9 (code bug): because `gocv.Normalize` runs before the barrier, the
`flowDoG` output depends on which per-pixel goroutines finished first: on a
concrete 1×2 raster with raw flow values `(2, 4)` and stale contents `0`,
the schedule in which all writers finish first gives pixel `(0,0)` the value
`(2-2)/(4-2) = 0`, while the schedule in which the rescale runs first leaves
the raw value `2`.  The pipeline is therefore not deterministic as the claim
requires. -/
theorem claim9_flowDoG_race_nondeterminism :
    flowDoGRacyOutput (fun _ x => if x = 0 then 2 else 4) (fun _ _ => 0) 1 2
        (fun _ _ => true) 0 0 ≠
      flowDoGRacyOutput (fun _ x => if x = 0 then 2 else 4) (fun _ _ => 0) 1 2
        (fun _ _ => false) 0 0 := by
  unfold flowDoGRacyOutput normMinMax matMin matMax matVals
  norm_num [List.range_succ]

/-- C2 (code bug): because `gocv.GaussianBlur` runs before the barrier, the
recombined working raster depends on which zeroing goroutines finished
first.  With a symmetric three-tap average standing in for the external
blur, a 1×2 image `(10, 20)` and a result raster marking pixel `(0,0)` as
edge, the all-writers-first schedule gives pixel `(0,1)` the value `20/3`
while the blur-first schedule gives `10`.  The blur is therefore not applied
only after every edge pixel has been zeroed, contrary to the claim. -/
theorem claim2_combineImage_blur_races_zeroing :
    combineImageRacy (fun f y x => (f y (x - 1) + f y x + f y (x + 1)) / 3)
        (fun _ x => if x = 0 then 10 else if x = 1 then 20 else 0)
        (fun _ x => if x = 0 then 0 else 255)
        (fun _ _ => true) 0 1 ≠
      combineImageRacy (fun f y x => (f y (x - 1) + f y x + f y (x + 1)) / 3)
        (fun _ x => if x = 0 then 10 else if x = 1 then 20 else 0)
        (fun _ x => if x = 0 then 0 else 255)
        (fun _ _ => false) 0 1 := by
  unfold combineImageRacy
  norm_num

end Colidr
